import Mathlib

/-!
Shallow embedding of the per-file caching and transfer engine of
`onedrive-fuse` (`src/vfs/file.rs` and `src/vfs/inode.rs`), together with
theorems settling the specification claims about it.

Modelling conventions:
* machine integers (`u64`, `usize`) are `Nat`; wrap-around is written out as
  an explicit `% 2 ^ 64` exactly where the Rust code can overflow;
* byte buffers (`Bytes`, `Vec<u8>`, the cache file) are `List Nat`;
* time stamps (`Instant`, `SystemTime`) are opaque `Nat` tokens passed in as
  parameters (`now`);
* an async wait that releases the state mutex and re-locks it is modelled by
  passing the state observed after re-locking as an explicit parameter
  (`postWait`);
* a Rust `panic!` / `unreachable!` / failed `expect` is modelled by an
  explicit result constructor or an `Option` result of `none`.
-/

namespace OnedriveFuse

/-- Opaque remote item identifier (`onedrive_api::ItemId`). -/
abbrev ItemId := String

/-- Opaque content tag (`onedrive_api::Tag`); compared for equality only. -/
abbrev Tag := String

/-- The `vfs::Error` variants produced by the file engine. -/
inductive Error where
  | fileTooLarge
  | writeWithoutCache
  | nonsequentialRead (currentPos tryOffset : Nat)
  | downloadFailed
  | invalidated
  | invalidHandle (fh : Nat)
  deriving DecidableEq

/-- `FileCacheStatus` (`file.rs` 689-709).  `downloading` carries the pending
truncation `(download_size, truncate_mtime)`; `dirty` carries the epoch stamp
`lock_mtime`, whether the one-shot `flush_tx` sender is still installed, and
the value currently held by the `done_rx` watch channel. -/
inductive FileCacheStatus where
  | downloading (truncate : Option (Nat × Nat))
  | downloadFailed
  | available
  | dirty (lockMtime : Nat) (flushTx : Bool) (doneRx : Bool)
  | invalidated
  deriving DecidableEq

/-- `UpdatedFileAttr` (`file.rs` 76-82). -/
structure UpdatedFileAttrM where
  itemId : ItemId
  size : Nat
  mtime : Nat
  cTag : Option Tag
  deriving DecidableEq

/-- Result of the final critical section of an uploader task. -/
structure UploadFinishResult where
  status : FileCacheStatus
  cTag : Tag
  emitted : Bool
  doneSignal : Bool
  panicked : Bool
  deriving DecidableEq

/-- First critical section of the uploader task's loop (`file.rs` 977-990):
take a snapshot of the cache file if the slot is still `Dirty` with the
stamp `initLockMtime` installed by this task's `queue_upload`; any other
status makes the task return. -/
def uploadSnapshot (initLockMtime : Nat) (status : FileCacheStatus)
    (content : List Nat) : Option (List Nat) :=
  match status with
  | .dirty lockMtime _ _ =>
    if lockMtime = initLockMtime then some content else none
  | _ => none

/-- Final critical section of the uploader task (`file.rs` 1026-1062),
entered after `upload_small` succeeded returning `newCTag`: publish the
upload only if the dirty epoch still matches; suppress the update event on
`Invalidated` or any other mismatch.  (`Downloading` is `unreachable!`.) -/
def uploadFinish (initLockMtime : Nat) (status : FileCacheStatus) (cTag : Tag)
    (newCTag : Tag) : UploadFinishResult :=
  match status with
  | .downloading t =>
    { status := .downloading t, cTag, emitted := false, doneSignal := false,
      panicked := true }
  | .dirty lockMtime flushTx doneRx =>
    if lockMtime = initLockMtime then
      { status := .available, cTag := newCTag, emitted := true,
        doneSignal := true, panicked := false }
    else
      { status := .dirty lockMtime flushTx doneRx, cTag, emitted := false,
        doneSignal := false, panicked := false }
  | .invalidated =>
    { status := .invalidated, cTag, emitted := false, doneSignal := false,
      panicked := false }
  | .available =>
    { status := .available, cTag, emitted := false, doneSignal := false,
      panicked := false }
  | .downloadFailed =>
    { status := .downloadFailed, cTag, emitted := false, doneSignal := false,
      panicked := false }

/-- The mutable slot state `FileCacheState` (`file.rs` 681-687):
`availableSize` is the value currently held by the `available_size` watch
channel, `content` the bytes of `cache_file`. -/
structure FileCacheStateM where
  status : FileCacheStatus
  fileSize : Nat
  availableSize : Nat
  content : List Nat
  deriving DecidableEq

/-- Byte `i` of the sparse, pre-sized cache file: unwritten regions read as
zero. -/
def fileByte (content : List Nat) (i : Nat) : Nat := content.getD i 0

/-- Read bytes `[offset, endPos)` of the cache file
(`seek(SeekFrom::Start(offset))` followed by `read_exact`). -/
def readBytes (content : List Nat) (offset endPos : Nat) : List Nat :=
  (List.range (endPos - offset)).map fun i => fileByte content (offset + i)

/-- Overwrite bytes of the cache file at `offset` with `data`
(`seek` + `write_all`), zero-extending the sparse file if the write reaches
past its current end. -/
def writeAt (content : List Nat) (offset : Nat) (data : List Nat) : List Nat :=
  (List.range (max content.length (offset + data.length))).map fun i =>
    if offset ≤ i ∧ i < offset + data.length then data.getD (i - offset) 0
    else fileByte content i

/-- Result of `FileCache::read`. -/
inductive ReadResult where
  | err (e : Error)
  | ok (bytes : List Nat) (st : FileCacheStateM)
  deriving DecidableEq

/-- Serving a read from disk (`file.rs` 878-888): the end of the range is
clamped by the current `file_size` (which may have shrunk under truncation;
the `u64` subtraction `end - offset` is modelled by saturating `Nat`
subtraction inside `readBytes`). -/
def serveRead (g : FileCacheStateM) (offset endPos : Nat) : ReadResult :=
  .ok (readBytes g.content offset (min endPos g.fileSize)) g

/-- `FileCache::read` (`file.rs` 848-889).  `postWait` is the slot state
observed after re-locking when the requested range was not yet available
while the slot was `Downloading` (the caller released the lock and awaited
the `available_size` watch channel). -/
def FileCache.read (st : FileCacheStateM) (offset : Nat) (size : Nat)
    (postWait : FileCacheStateM) : ReadResult :=
  if st.fileSize ≤ offset ∨ size = 0 then .ok [] st
  else
    let endPos := offset + size
    match st.status with
    | .available | .dirty _ _ _ => serveRead st offset endPos
    | .invalidated => .err .invalidated
    | .downloadFailed => .err .downloadFailed
    | .downloading _ =>
      if endPos ≤ st.availableSize then serveRead st offset endPos
      else
        match postWait.status with
        | .invalidated => .err .invalidated
        | .downloadFailed => .err .downloadFailed
        | _ => serveRead postWait offset endPos

/-- Result of `FileCache::write`: `total` is the cache-wide byte counter
`DiskCache::total_size` as updated by the call. -/
inductive WriteResult where
  | err (e : Error)
  | ok (st : FileCacheStateM) (total : Nat) (attr : UpdatedFileAttrM)
  | panicked
  deriving DecidableEq

/-- `FileCache::write` (`file.rs` 891-953).  `postWait` is the slot state and
byte counter observed after re-locking when the initial status was
`Downloading` (the writer awaits the watch channel until the download
finishes); the second status `match` treats `Downloading` as unreachable.
`now` stands for the `SystemTime::now()` mtime and the `Instant::now()`
epoch stamp that `queue_upload` installs. -/
def FileCache.write (maxSize : Nat) (itemId : ItemId) (st : FileCacheStateM)
    (total : Nat) (offset : Nat) (data : List Nat)
    (postWait : FileCacheStateM × Nat) (now : Nat) : WriteResult :=
  if maxSize < offset + data.length then .err .fileTooLarge
  else
    match st.status with
    | .invalidated => .err .invalidated
    | .downloadFailed => .err .downloadFailed
    | _ =>
      let g : FileCacheStateM × Nat :=
        match st.status with
        | .downloading _ => postWait
        | _ => (st, total)
      match g.1.status with
      | .invalidated => .err .invalidated
      | .downloadFailed => .err .downloadFailed
      | .downloading _ => .panicked
      | .dirty _ _ _ | .available =>
        let g1 : FileCacheStateM :=
          { g.1 with status := .dirty now true false }
        let content := writeAt g1.content offset data
        let newSize := max g1.fileSize (offset + data.length)
        let total1 :=
          if g1.fileSize < newSize then g.2 + (newSize - g1.fileSize) else g.2
        .ok { g1 with content := content, fileSize := newSize } total1
          { itemId := itemId, size := newSize, mtime := now, cTag := none }

/-- Statuses on which a write proceeds (third arm of both matches). -/
def statusWritable : FileCacheStatus → Bool
  | .available | .dirty _ _ _ => true
  | _ => false

/-- Concrete slot state used by the C4 witness. -/
def c4State : FileCacheStateM :=
  { status := .available, fileSize := 2, availableSize := 2, content := [7, 8] }

/-- The chunk-consuming loop of `FileStreamState::read` (`file.rs` 424-444):
fill `acc` up to `size` bytes from the chunk sequence, stashing the cut
remainder of the last chunk, and stop early when the channel is exhausted.
Returns `(ret_buf, stashed buffer, chunks left in the channel)`. -/
def fillChunks (size : Nat) (acc : List Nat) :
    List (List Nat) → List Nat × Option (List Nat) × List (List Nat)
  | [] => (acc, none, [])
  | c :: cs =>
    let rest := size - acc.length
    if rest < c.length then (acc ++ c.take rest, some (c.drop rest), cs)
    else if (acc ++ c).length = size then (acc ++ c, none, cs)
    else fillChunks size (acc ++ c) cs

/-- `FileStreamState` (`file.rs` 392-396): the sequential-read cursor, the
stashed unconsumed chunk prefix, and the chunks still pending in the
bounded channel (the channel closes after the last of them). -/
structure FileStreamStateM where
  currentPos : Nat
  buffer : Option (List Nat)
  chunks : List (List Nat)
  deriving DecidableEq

/-- The loop of `FileStreamState::read` takes the stashed `buffer` first and
then receives from the channel, treating both uniformly. -/
def fillFrom (size : Nat) (buffer : Option (List Nat))
    (chunks : List (List Nat)) : List Nat × Option (List Nat) × List (List Nat) :=
  fillChunks size [] (buffer.toList ++ chunks)

/-- `FileStreamState::read` (`file.rs` 415-453).  `offset` and `size` are
already clamped by the caller (`FilePool::read`). -/
def FileStreamState.read (st : FileStreamStateM) (offset size : Nat) :
    Except Error (List Nat) × FileStreamStateM :=
  if offset ≠ st.currentPos then
    (.error (.nonsequentialRead st.currentPos offset), st)
  else
    let r := fillFrom size st.buffer st.chunks
    let st1 : FileStreamStateM :=
      { currentPos := st.currentPos + r.1.length, buffer := r.2.1,
        chunks := r.2.2 }
    if r.1.length = size then (.ok r.1, st1) else (.error .downloadFailed, st1)

/-- The per-range-request retry loop of `download_thread` (`file.rs`
468-498).  `outcome i` tells whether attempt `i` (0-based) yields a
`206 Partial Content` response; any transport error or other status counts
as a failure.  Returns `(some i, s)` when attempt `i` succeeded after `s`
back-off sleeps of `retry_delay`, or `(none, s)` when retries were
exhausted after `s` sleeps and the task returns, dropping the chunk sink. -/
def requestLoop (maxRetry : Nat) (outcome : Nat → Bool) (tries : Nat) :
    Option Nat × Nat :=
  if outcome tries then (some tries, tries)
  else if maxRetry < tries + 1 then (none, tries)
  else requestLoop maxRetry outcome (tries + 1)
termination_by maxRetry + 1 - tries
decreasing_by simp_wf; omega

/-- The `complete` closure of `FileCache::write_to_cache_thread` (`file.rs`
746-768): a pending truncation makes the finished slot `Dirty` via
`queue_upload` (with a fresh epoch stamp `now`), otherwise it becomes
`Available`. -/
def completeStatus (truncate : Option (Nat × Nat)) (now : Nat) :
    FileCacheStatus :=
  match truncate with
  | some _ => .dirty now true false
  | none => .available

/-- The `download_size` cap the writer task computes from the slot status
(`file.rs` 825-827). -/
def downloadSizeOf (truncate : Option (Nat × Nat)) (fileSize : Nat) : Nat :=
  (truncate.map Prod.fst).getD fileSize

/-- Tail of `FileCache::write_to_cache_thread` after the chunk channel
closed (`file.rs` 823-845): with `pos` bytes written, either record
`DownloadFailed` or finalize the slot; `none` models the `unreachable!`
arms. -/
def writerOnClose (pos : Nat) (status : FileCacheStatus) (fileSize now : Nat) :
    Option FileCacheStatus :=
  match status with
  | .downloading truncate =>
    if pos < downloadSizeOf truncate fileSize then some .downloadFailed
    else some (completeStatus truncate now)
  | .invalidated => some .invalidated
  | _ => none

/-- What `DiskCache::sync_items` reads of a cached slot: its stored tag and
its status (set to `Invalidated` for outdated slots). -/
structure CachedSlotM where
  cTag : Tag
  status : FileCacheStatus
  deriving DecidableEq

/-- The fields of a sync-feed `DriveItem` that `sync_items` consumes:
`folder` is `item.folder.is_some()`, `deleted` is `item.deleted.is_some()`,
and `cTag` mirrors the optional `c_tag` field. -/
structure DriveItemM where
  id : ItemId
  folder : Bool
  deleted : Bool
  cTag : Option Tag
  deriving DecidableEq

/-- The LRU map `ItemId → Arc<FileCache>` restricted to what `sync_items`
touches.  `get_mut` additionally refreshes the entry's LRU position, which
does not change the association modelled here. -/
abbrev CacheMapM := List (ItemId × CachedSlotM)

def lookupSlot (m : CacheMapM) (id : ItemId) : Option CachedSlotM :=
  (m.find? (fun e => e.1 == id)).map Prod.snd

def removeSlot (m : CacheMapM) (id : ItemId) : CacheMapM :=
  m.filter fun e => !(e.1 == id)

/-- Processing of one batch element in `DiskCache::sync_items` (`file.rs`
634-665).  Returns the updated map and the slots removed this step (they
are marked `Invalidated` once the map lock is dropped, `file.rs` 667-669);
`none` models the `expect("Missing c_tag")` panic on a non-deleted,
non-folder item without a tag. -/
def syncOne (m : CacheMapM) (item : DriveItemM) :
    Option (CacheMapM × List CachedSlotM) :=
  if item.folder then some (m, [])
  else
    match lookupSlot m item.id with
    | none => some (m, [])
    | some slot =>
      if item.deleted then
        some (removeSlot m item.id, [{ slot with status := .invalidated }])
      else
        match item.cTag with
        | none => none
        | some t =>
          if slot.cTag = t then some (m, [])
          else
            some (removeSlot m item.id, [{ slot with status := .invalidated }])

/-- `DiskCache::sync_items` over a whole batch: fold `syncOne`, collecting
the slots to invalidate. -/
def DiskCache.sync_items (m : CacheMapM) :
    List DriveItemM → Option (CacheMapM × List CachedSlotM)
  | [] => some (m, [])
  | item :: rest =>
    match syncOne m item with
    | none => none
    | some (m1, out1) =>
      match DiskCache.sync_items m1 rest with
      | none => none
      | some (m2, out2) => some (m2, out1 ++ out2)

/-- The slab entry `Inode` restricted to what the claims need (`inode.rs`
87-92). -/
structure InodeM where
  refCount : Nat
  itemId : ItemId
  deriving DecidableEq

/-- `InodePool` (`inode.rs` 79-85): the slab (`pool`, index = key, `none`
for cleared entries) and the reverse map `ItemId → key`.  Both
`acquire_or_alloc` and `free_key` hold the reverse-map mutex for their
whole critical section, so the sequential semantics below is faithful. -/
structure InodePoolM where
  pool : List (Option InodeM)
  revMap : List (ItemId × Nat)
  deriving DecidableEq

def revLookup (p : InodePoolM) (id : ItemId) : Option Nat :=
  (p.revMap.find? (fun e => e.1 == id)).map Prod.snd

def poolGet (p : InodePoolM) (key : Nat) : Option InodeM :=
  p.pool.getD key none

/-- `Pool::create` of `sharded_slab`: reuse the first cleared slot, else
grow the slab. -/
def slabCreate : List (Option InodeM) → InodeM → Nat × List (Option InodeM)
  | [], ino => (0, [some ino])
  | none :: rest, ino => (0, some ino :: rest)
  | some x :: rest, ino =>
    let r := slabCreate rest ino
    (r.1 + 1, some x :: r.2)

/-- `InodePool::acquire_or_alloc` (`inode.rs` 143-168): bump the ref-count
of an existing entry, or allocate a fresh entry with ref-count 1 and insert
it into the reverse map.  `none` models the `unwrap` panic on a dangling
reverse-map entry (unreachable under the pool invariant). -/
def InodePool.acquire_or_alloc (p : InodePoolM) (id : ItemId) :
    Option (Nat × InodePoolM) :=
  match revLookup p id with
  | some key =>
    match poolGet p key with
    | none => none
    | some ino =>
      some (key,
        { p with
            pool := p.pool.set key
              (some { ino with refCount := ino.refCount + 1 }) })
  | none =>
    let r := slabCreate p.pool { refCount := 1, itemId := id }
    some (r.1, { pool := r.2, revMap := p.revMap ++ [(id, r.1)] })

/-- Result of `InodePool::free_key`. -/
inductive FreeKeyResult where
  | invalid
  | decremented (p : InodePoolM)
  | freed (p : InodePoolM)
  | panicked
  deriving DecidableEq

/-- `InodePool::free_key` (`inode.rs` 170-182): `fetch_sub(count)` on the
`u64` ref-count (the wrapping difference equals `orig - count` on the kept
branch, where `count < orig`); when `count ≥ orig` the reverse-map entry is
removed first and the slab entry cleared afterwards, both inside the same
reverse-map critical section.  `invalid` is the dead-key `None` return
(mapped to `InvalidInode` by `free`); `panicked` models the
`assert!(rev_g.remove(..).is_some())` failure. -/
def InodePool.free_key (p : InodePoolM) (key count : Nat) : FreeKeyResult :=
  match poolGet p key with
  | none => .invalid
  | some ino =>
    if count < ino.refCount then
      .decremented
        { p with
            pool := p.pool.set key
              (some { ino with refCount := ino.refCount - count }) }
    else
      if (revLookup p ino.itemId).isNone then .panicked
      else
        .freed
          { pool := p.pool.set key none,
            revMap := p.revMap.filter fun e => !(e.1 == ino.itemId) }

/-- Concrete pool used by the C8 witness: one live inode for item `a` with
ref-count 2 at key 0. -/
def c8Pool : InodePoolM :=
  { pool := [some { refCount := 2, itemId := "a" }], revMap := [("a", 0)] }

/-- Rust `u64` subtraction `a - b` as `overflowing_sub` (for `a, b < 2^64`):
the wrapped value and the underflow flag.  Debug builds panic when the flag
is set; release builds keep the wrapped value. -/
def u64_overflowing_sub (a b : Nat) : Nat × Bool :=
  ((a + 2 ^ 64 - b) % 2 ^ 64, decide (a < b))

/-- The streaming arm of `FilePool::read` (`file.rs` 297-301): clamp the
requested size with the unchecked subtraction `file_size - offset`, then
delegate to `FileStreamState::read`. -/
def FilePool.readStreaming (fileSize : Nat) (st : FileStreamStateM)
    (offset size : Nat) : Except Error (List Nat) × FileStreamStateM :=
  let clamped := min size (u64_overflowing_sub fileSize offset).1
  FileStreamState.read st offset clamped

/-- A live cache slot as the byte-budget accounting sees it. -/
structure SlotEntry where
  id : ItemId
  size : Nat
  status : FileCacheStatus
  deriving DecidableEq

/-- The numeric configuration the budget claims need
(`DiskCacheConfig.max_cached_file_size`, `.max_total_size`,
`UploadConfig.max_size`).  `DiskCache::new` asserts
`max_cached_file_size ≤ max_total_size` (`file.rs` 530). -/
structure DiskCacheConfigM where
  maxCachedFileSize : Nat
  maxTotalSize : Nat
  uploadMaxSize : Nat
  deriving DecidableEq

/-- `DiskCache` budget state: `lru` is the LRU map in eviction order (least
recently used first); `detached` holds slots removed from the map whose
last `Arc` reference has not dropped yet, so their `Drop` hook has not run
and `total_size` still counts them; `totalSize` is the `AtomicU64`
counter. -/
structure DiskCacheM where
  lru : List SlotEntry
  detached : List SlotEntry
  totalSize : Nat
  deriving DecidableEq

/-- Sum of `file_size` over all live slots, in the map or detached. -/
def sumLive (s : DiskCacheM) : Nat :=
  (s.lru.map SlotEntry.size).sum + (s.detached.map SlotEntry.size).sum

/-- The eviction loop of `DiskCache::try_alloc_and_fetch` (`file.rs`
567-575): pop LRU entries while `max_cached_file_size < total_size +
file_size` (the code compares against `max_cached_file_size`, not
`max_total_size`).  A popped entry either drops at once (its `Drop` hook
subtracts its size from `total_size`) or stays live but detached while
other `Arc` references survive; `drops` schedules which happens (default:
detach).  The boolean result tells whether space was found; `false` means
the map emptied first and the caller gets no slot. -/
def evictLoop (maxCached fileSize : Nat) :
    List SlotEntry → List Bool → Nat → List SlotEntry →
      List SlotEntry × Nat × List SlotEntry × Bool
  | lru, drops, total, det =>
    if maxCached < total + fileSize then
      match lru, drops with
      | [], _ => ([], total, det, false)
      | e :: rest, true :: ds =>
        evictLoop maxCached fileSize rest ds (total - e.size) det
      | e :: rest, false :: ds =>
        evictLoop maxCached fileSize rest ds total (det ++ [e])
      | e :: rest, [] => evictLoop maxCached fileSize rest [] total (det ++ [e])
    else (lru, total, det, true)

/-- `DiskCache::try_alloc_and_fetch` (`file.rs` 547-608) restricted to its
effect on the budget state: reject oversized files, return an existing slot
unchanged, else evict, then insert a fresh `Downloading` slot and add its
pre-sized `file_size` to the counter (`FileCache::new`, `file.rs` 721). -/
def tryAllocAndFetch (cfg : DiskCacheConfigM) (id : ItemId) (fileSize : Nat)
    (truncate : Option (Nat × Nat)) (s : DiskCacheM) (drops : List Bool) :
    DiskCacheM × Bool :=
  if cfg.maxCachedFileSize < fileSize then (s, false)
  else if (s.lru.find? fun e => e.id == id).isSome then (s, true)
  else
    match evictLoop cfg.maxCachedFileSize fileSize s.lru drops s.totalSize
        s.detached with
    | (lru1, total1, det1, true) =>
      ({ lru :=
           lru1 ++ [{ id := id, size := fileSize,
                      status := .downloading truncate }],
         detached := det1, totalSize := total1 + fileSize }, true)
    | (lru1, total1, det1, false) =>
      ({ lru := lru1, detached := det1, totalSize := total1 }, false)

/-- `DiskCache::insert_empty` (`file.rs` 610-629) on the budget state: a
fresh `Available` slot of size 0 (`FileCache::new` adds 0 to the counter);
a previous slot for the same id is replaced in the map, marked
`Invalidated`, and stays live until its references drop. -/
def insertEmpty (id : ItemId) (s : DiskCacheM) : DiskCacheM :=
  { lru := (s.lru.filter fun e => !(e.id == id)) ++
      [{ id := id, size := 0, status := .available }],
    detached := s.detached ++
      ((s.lru.filter fun e => e.id == id).map fun e =>
        { e with status := .invalidated }),
    totalSize := s.totalSize }

/-- Budget effect of `CacheSlot::write` growing a mapped slot (`file.rs`
900 and 933-945): rejected past `upload.max_size`; proceeds only on
`Available`/`Dirty`; grows `file_size` to `max(file_size, endPos)` with
`endPos = offset + data.len()` and adds the growth delta to
`total_size`. -/
def writeGrow (cfg : DiskCacheConfigM) (id : ItemId) (endPos now : Nat)
    (s : DiskCacheM) : DiskCacheM :=
  if cfg.uploadMaxSize < endPos then s
  else
    match s.lru.find? fun e => e.id == id with
    | some e =>
      if statusWritable e.status then
        { s with
            lru := s.lru.map fun x =>
              if x.id == id then
                { x with
                    size := max x.size endPos,
                    status := .dirty now true false }
              else x,
            totalSize := s.totalSize + (max e.size endPos - e.size) }
      else s
    | none => s

/-- `Drop for FileCache` (`file.rs` 1068-1074) for a detached slot: the
last reference is gone; subtract the last-known `file_size` from
`total_size`. -/
def dropDetached (s : DiskCacheM) : DiskCacheM :=
  match s.detached with
  | [] => s
  | e :: rest => { s with detached := rest, totalSize := s.totalSize - e.size }

/-- The budget-relevant operations on the `DiskCache`. -/
inductive CacheOp where
  | alloc (id : ItemId) (fileSize : Nat) (drops : List Bool)
  | insertNew (id : ItemId)
  | write (id : ItemId) (endPos now : Nat)
  | dropOne
  deriving DecidableEq

def CacheOp.isWrite : CacheOp → Bool
  | .write _ _ _ => true
  | _ => false

def applyOp (cfg : DiskCacheConfigM) (s : DiskCacheM) : CacheOp → DiskCacheM
  | .alloc id fileSize drops => (tryAllocAndFetch cfg id fileSize none s drops).1
  | .insertNew id => insertEmpty id s
  | .write id endPos now => writeGrow cfg id endPos now s
  | .dropOne => dropDetached s

def emptyCache : DiskCacheM := { lru := [], detached := [], totalSize := 0 }

def runOps (cfg : DiskCacheConfigM) (ops : List CacheOp) : DiskCacheM :=
  ops.foldl (applyOp cfg) emptyCache

/-- The accounting invariant: the atomic counter equals the live sum. -/
def accounted (s : DiskCacheM) : Prop := s.totalSize = sumLive s

instance (s : DiskCacheM) : Decidable (accounted s) :=
  inferInstanceAs (Decidable (s.totalSize = sumLive s))

/-- A configuration satisfying the constructor assertion of
`DiskCache::new`, with `upload.max_size` larger than the byte budget. -/
def c1Cfg : DiskCacheConfigM :=
  { maxCachedFileSize := 10, maxTotalSize := 10, uploadMaxSize := 100 }

/-- Events interleaved with the writer task of a downloading slot: a chunk
of `len` bytes arriving from the chunk channel, or a
`FilePool::truncate_file` call resizing the file mid-download. -/
inductive DlEvent where
  | chunk (len : Nat)
  | truncateTo (newSize : Nat)
  deriving DecidableEq

/-- The writer-task view of a downloading slot: bytes written so far
(`pos`), the slot's `file_size`, the pending truncation cap, and whether
the writer has finalized the slot (left the `Downloading` status). -/
structure WriterSt where
  pos : Nat
  fileSize : Nat
  truncatePending : Option Nat
  done : Bool
  deriving DecidableEq

/-- The `download_size` cap of the loop body (`file.rs` 772-786), for a slot
that stays cached (`strong_count ≥ 2`). -/
def downloadCap (s : WriterSt) : Nat := s.truncatePending.getD s.fileSize

/-- One iteration of the chunk loop of `FileCache::write_to_cache_thread`
(`file.rs` 770-821): trim the chunk at the cap
(`download_size.saturating_sub(pos)`), advance `pos`, publish `pos` on the
`available_size` watch channel while `pos < download_size`, else publish
`file_size` and finalize the slot.  Returns the new state and the values
sent on the watch channel. -/
def writerChunk (s : WriterSt) (len : Nat) : WriterSt × List Nat :=
  if s.done then (s, [])
  else
    let cap := downloadCap s
    let written := min len (cap - s.pos)
    let pos1 := s.pos + written
    if pos1 < cap then ({ s with pos := pos1 }, [pos1])
    else ({ s with pos := pos1, done := true }, [s.fileSize])

/-- `FilePool::truncate_file` on a still-`Downloading` slot (`file.rs`
226-238): cap the download at `min(download_size, new_size)` and set
`file_size = new_size`; nothing is published on the watch channel.  Once
the writer has finalized, the slot is no longer `Downloading` and the call
takes the `Available`/`Dirty` path, which publishes nothing either. -/
def truncateDuringDownload (s : WriterSt) (newSize : Nat) : WriterSt :=
  if s.done then s
  else
    { s with
        truncatePending := some (min (downloadCap s) newSize),
        fileSize := newSize }

/-- A run of the writer task interleaved with truncations: the final state
and the values published on the `available_size` watch channel, in
order. -/
def writerRun : WriterSt → List DlEvent → WriterSt × List Nat
  | s, [] => (s, [])
  | s, .chunk n :: es =>
    let r := writerChunk s n
    let r2 := writerRun r.1 es
    (r2.1, r.2 ++ r2.2)
  | s, .truncateTo n :: es => writerRun (truncateDuringDownload s n) es

/-- The initial writer state of a freshly allocated 1000-byte slot. -/
def c2Init : WriterSt :=
  { pos := 0, fileSize := 1000, truncatePending := none, done := false }

/-- A download interleaving: 200 bytes arrive, a truncate shrinks the file
to 50 bytes, then another chunk arrives. -/
def c2Events : List DlEvent := [.chunk 200, .truncateTo 50, .chunk 10]

/-- Lower-bounded monotonicity of a publication list: elements are pairwise
non-decreasing and bounded below by `lb`, except that the final element is
unconstrained when the run finalized (`d = true`: the `file_size`
publication at completion). -/
def chainLB : Nat → List Nat → Bool → Prop
  | _, [], _ => True
  | lb, [x], d => if d then True else lb ≤ x
  | lb, x :: y :: rest, d => lb ≤ x ∧ chainLB x (y :: rest) d

/-- Claim C3: the uploader task with epoch stamp `E` publishes its upload
(status set to `Available`, `c_tag` updated, `UpdateEvent::UpdateFile`
emitted, `done_rx` signalled `true`) exactly when the status at its final
critical section is `Dirty` with `lock_mtime = E`; on `Invalidated` or any
other mismatch it exits without emitting an event and without changing
status or `c_tag`, and likewise its earlier critical section exits without
reading a snapshot on any mismatch. -/
theorem c3_upload_epoch (E : Nat) (status : FileCacheStatus) (cTag newCTag : Tag)
    (content : List Nat) :
    (match status with
      | .dirty m f d =>
        if m = E then
          uploadFinish E status cTag newCTag =
            { status := .available, cTag := newCTag, emitted := true,
              doneSignal := true, panicked := false } ∧
          uploadSnapshot E status content = some content
        else
          uploadFinish E status cTag newCTag =
            { status := .dirty m f d, cTag, emitted := false,
              doneSignal := false, panicked := false } ∧
          uploadSnapshot E status content = none
      | .downloading _ =>
        (uploadFinish E status cTag newCTag).panicked = true ∧
        uploadSnapshot E status content = none
      | _ =>
        uploadFinish E status cTag newCTag =
          { status := status, cTag := cTag, emitted := false,
            doneSignal := false, panicked := false } ∧
        uploadSnapshot E status content = none) := by
  cases status <;> simp [uploadFinish, uploadSnapshot]

/-- Claim C9: for every slot state, whatever the status (including
`Invalidated` and `DownloadFailed`), a read with `size = 0` or with
`offset ≥ file_size` returns empty bytes rather than an error: the guard at
the top of `FileCache::read` runs before any status inspection. -/
theorem c9_read_empty (st : FileCacheStateM) (offset size : Nat)
    (postWait : FileCacheStateM) (h : st.fileSize ≤ offset ∨ size = 0) :
    FileCache.read st offset size postWait = .ok [] st := by
  simp [FileCache.read, h]

/-- Witness for C9 at a concrete input: an `Invalidated` slot of size 5 read
at offset 7, and a `DownloadFailed` slot read with size 0. -/
theorem c9_read_empty_witness :
    FileCache.read
        { status := .invalidated, fileSize := 5, availableSize := 5,
          content := [1, 2, 3, 4, 5] } 7 3
        { status := .invalidated, fileSize := 5, availableSize := 5,
          content := [1, 2, 3, 4, 5] } =
      .ok []
        { status := .invalidated, fileSize := 5, availableSize := 5,
          content := [1, 2, 3, 4, 5] } ∧
    FileCache.read
        { status := .downloadFailed, fileSize := 5, availableSize := 0,
          content := [1, 2, 3, 4, 5] } 0 0
        { status := .downloadFailed, fileSize := 5, availableSize := 0,
          content := [1, 2, 3, 4, 5] } =
      .ok []
        { status := .downloadFailed, fileSize := 5, availableSize := 0,
          content := [1, 2, 3, 4, 5] } :=
  ⟨c9_read_empty _ _ _ _ (by decide), c9_read_empty _ _ _ _ (by decide)⟩

/-- Claim C4: `CacheSlot::write(offset, data)` fails with `FileTooLarge`
before any state change when `offset + len(data) > upload.max_size`;
otherwise, once the status is `Available` or `Dirty`, it transitions to
`Dirty` via `queue_upload`, writes the bytes at `offset` into the cache
file, sets `file_size` to `max(file_size, offset + len)`, adds the growth
delta to the total byte counter, and returns an `UpdatedFileAttr` whose
`size` is the new `file_size` and whose `c_tag` is absent. -/
theorem c4_write_spec (maxSize : Nat) (itemId : ItemId) (st : FileCacheStateM)
    (total offset : Nat) (data : List Nat) (postWait : FileCacheStateM × Nat)
    (now : Nat) :
    (maxSize < offset + data.length →
      FileCache.write maxSize itemId st total offset data postWait now =
        .err .fileTooLarge) ∧
    (offset + data.length ≤ maxSize → statusWritable st.status = true →
      FileCache.write maxSize itemId st total offset data postWait now =
        .ok
          { st with
              status := .dirty now true false,
              content := writeAt st.content offset data,
              fileSize := max st.fileSize (offset + data.length) }
          (total + (max st.fileSize (offset + data.length) - st.fileSize))
          { itemId := itemId, size := max st.fileSize (offset + data.length),
            mtime := now, cTag := none }) := by
  constructor
  · intro h
    simp [FileCache.write, h]
  · intro hle hw
    have hnle : ¬ maxSize < offset + data.length := Nat.not_lt.mpr hle
    cases hst : st.status <;> simp [statusWritable, hst] at hw <;>
      simp [FileCache.write, hnle, hst] <;>
      omega

/-- Witness for C4 at a concrete input: writing three bytes at offset 1 into
an `Available` two-byte slot under `upload.max_size = 10`. -/
theorem c4_write_witness :
    FileCache.write 10 "it" c4State 2 1 [9, 9, 9] (c4State, 2) 5 =
      .ok
        { status := .dirty 5 true false, fileSize := 4, availableSize := 2,
          content := [7, 9, 9, 9] } 4
        { itemId := "it", size := 4, mtime := 5, cTag := none } := by
  rw [(c4_write_spec 10 "it" c4State 2 1 [9, 9, 9] (c4State, 2) 5).2
    (by decide) (by decide)]
  decide

theorem fillChunks_length (size : Nat) :
    ∀ (chunks : List (List Nat)) (acc : List Nat), acc.length ≤ size →
      (fillChunks size acc chunks).1.length ≤ size ∧
      ((fillChunks size acc chunks).1.length < size →
        (fillChunks size acc chunks).2.1 = none ∧
        (fillChunks size acc chunks).2.2 = []) := by
  intro chunks
  induction chunks with
  | nil =>
    intro acc h
    exact ⟨h, fun _ => ⟨rfl, rfl⟩⟩
  | cons c cs ih =>
    intro acc h
    by_cases h1 : size - acc.length < c.length
    · have hlen : (acc ++ c.take (size - acc.length)).length = size := by
        simp [List.length_take]
        omega
      simp [fillChunks, h1, hlen]
    · by_cases h2 : (acc ++ c).length = size
      · simp [fillChunks, h1, h2]
      · simp only [List.length_append] at h2
        have h3 : (acc ++ c).length ≤ size := by
          simp
          omega
        have := ih (acc ++ c) h3
        simpa [fillChunks, h1, h2] using this

/-- Claim C5: `StreamState::read(offset, size)` fails with
`NonsequentialRead{current_pos, try_offset}` when `offset` is not the
current cursor; otherwise it returns exactly `size` bytes and advances
`current_pos` by `size`, and it delivers fewer bytes than requested only
when the chunk channel has closed early (download failure), in which case
it fails with `DownloadFailed` after advancing `current_pos` by the bytes
actually consumed. -/
theorem c5_stream_read_spec (st : FileStreamStateM) (offset size : Nat) :
    (offset ≠ st.currentPos →
      FileStreamState.read st offset size =
        (.error (.nonsequentialRead st.currentPos offset), st)) ∧
    (offset = st.currentPos →
      (∀ buf st1, FileStreamState.read st offset size = (.ok buf, st1) →
        buf.length = size ∧ st1.currentPos = offset + size) ∧
      (∀ e st1, FileStreamState.read st offset size = (.error e, st1) →
        e = .downloadFailed ∧ st1.buffer = none ∧ st1.chunks = [] ∧
        ∃ n, n < size ∧ st1.currentPos = offset + n)) := by
  constructor
  · intro h
    simp [FileStreamState.read, h]
  · intro h
    have hfill := fillChunks_length size (st.buffer.toList ++ st.chunks) []
      (Nat.zero_le size)
    by_cases hsz :
        (fillChunks size [] (st.buffer.toList ++ st.chunks)).1.length = size
    · constructor
      · intro buf st1 hr
        simp [FileStreamState.read, h, fillFrom, hsz] at hr
        rcases hr with ⟨hbuf, hst⟩
        subst hbuf
        subst hst
        simp [hsz, h]
      · intro e st1 hr
        simp [FileStreamState.read, h, fillFrom, hsz] at hr
    · constructor
      · intro buf st1 hr
        simp [FileStreamState.read, h, fillFrom, hsz] at hr
      · intro e st1 hr
        have hlt :
            (fillChunks size [] (st.buffer.toList ++ st.chunks)).1.length <
              size := Nat.lt_of_le_of_ne hfill.1 hsz
        have hrest := hfill.2 hlt
        simp [FileStreamState.read, h, fillFrom, hsz] at hr
        rcases hr with ⟨he, hst⟩
        subst hst
        refine ⟨he.symm ▸ rfl, hrest.1, hrest.2, _, hlt, by simp [h]⟩

/-- Witness for C5 at concrete inputs: a sequential read of 3 bytes over
chunks `[1,2]` and `[3,4]` succeeds and stashes the overshoot, and a read of
3 bytes over a closed channel holding only `[1]` fails with
`DownloadFailed` after consuming one byte. -/
theorem c5_stream_read_witness :
    (([1, 2, 3] : List Nat).length = 3 ∧
      (⟨8, some [4], []⟩ : FileStreamStateM).currentPos = 5 + 3) ∧
    (Error.downloadFailed = .downloadFailed ∧
      (⟨1, none, []⟩ : FileStreamStateM).buffer = none ∧
      (⟨1, none, []⟩ : FileStreamStateM).chunks = [] ∧
      ∃ n, n < 3 ∧ (⟨1, none, []⟩ : FileStreamStateM).currentPos = 0 + n) :=
  ⟨((c5_stream_read_spec ⟨5, none, [[1, 2], [3, 4]]⟩ 5 3).2 rfl).1
      [1, 2, 3] ⟨8, some [4], []⟩ rfl,
    ((c5_stream_read_spec ⟨0, none, [[1]]⟩ 0 3).2 rfl).2
      .downloadFailed ⟨1, none, []⟩ rfl⟩

theorem requestLoop_go (maxRetry : Nat) (outcome : Nat → Bool) :
    ∀ fuel tries, maxRetry - tries = fuel → tries ≤ maxRetry →
      ((requestLoop maxRetry outcome tries).1 = none ↔
        ∀ i, tries ≤ i → i ≤ maxRetry → outcome i = false) ∧
      ((requestLoop maxRetry outcome tries).1 = none →
        (requestLoop maxRetry outcome tries).2 = maxRetry) ∧
      (∀ i, (requestLoop maxRetry outcome tries).1 = some i →
        outcome i = true ∧ i ≤ maxRetry ∧
        (∀ j, tries ≤ j → j < i → outcome j = false) ∧
        (requestLoop maxRetry outcome tries).2 = i) := by
  intro fuel
  induction fuel with
  | zero =>
    intro tries hf ht
    have heq : tries = maxRetry := by omega
    subst heq
    rw [requestLoop]
    by_cases ho : outcome tries
    · simp only [ho, if_true]
      refine ⟨?_, by simp, ?_⟩
      · constructor
        · intro hc
          exact absurd hc (by simp)
        · intro hall
          have := hall tries le_rfl le_rfl
          rw [ho] at this
          exact absurd this (by simp)
      · intro i hi
        have h5 : tries = i := by
          simpa using hi
        subst h5
        exact ⟨ho, le_rfl, fun j h1 h2 => absurd (lt_of_le_of_lt h1 h2) (lt_irrefl _), rfl⟩
    · rw [Bool.not_eq_true] at ho
      rw [if_neg (by simp [ho]), if_pos (Nat.lt_succ_self _)]
      refine ⟨?_, fun _ => rfl, by simp⟩
      constructor
      · intro _ i h1 h2
        have h5 : i = tries := le_antisymm h2 h1
        subst h5
        exact ho
      · intro _
        rfl
  | succ n ih =>
    intro tries hf ht
    have hlt : tries < maxRetry := by omega
    rw [requestLoop]
    by_cases ho : outcome tries
    · simp only [ho, if_true]
      refine ⟨?_, by simp, ?_⟩
      · constructor
        · intro hc
          exact absurd hc (by simp)
        · intro hall
          have := hall tries le_rfl ht
          rw [ho] at this
          exact absurd this (by simp)
      · intro i hi
        have h5 : tries = i := by
          simpa using hi
        subst h5
        exact ⟨ho, ht, fun j h1 h2 => absurd (lt_of_le_of_lt h1 h2) (lt_irrefl _), rfl⟩
    · rw [Bool.not_eq_true] at ho
      have hnoAbort : ¬ maxRetry < tries + 1 := by omega
      rw [if_neg (by simp [ho]), if_neg hnoAbort]
      have hrec := ih (tries + 1) (by omega) (by omega)
      refine ⟨?_, hrec.2.1, ?_⟩
      · rw [hrec.1]
        constructor
        · intro hall i h1 h2
          rcases Nat.eq_or_lt_of_le h1 with h1 | h1
          · subst h1
            exact ho
          · exact hall i h1 h2
        · intro hall i h1 h2
          exact hall i (by omega) h2
      · intro i hi
        rcases hrec.2.2 i hi with ⟨h1, h2, h3, h4⟩
        refine ⟨h1, h2, ?_, h4⟩
        intro j hj1 hj2
        rcases Nat.eq_or_lt_of_le hj1 with hj | hj
        · subst hj
          exact ho
        · exact h3 j (by omega) hj2

/-- Claim C6: each failed range request (transport error or a non-206
status) is retried with `retry_delay` between attempts; the downloader
aborts, dropping the sink, exactly when the initial attempt and all
`max_retry` retries failed (and then after exactly `max_retry` sleeps); a
successful attempt `i` happens within the first `max_retry + 1` attempts,
after `i` failures and `i` sleeps.  And when the chunk channel closes while
the slot is still `Downloading` with fewer than `download_cap` bytes
written, the writer task sets the slot status to `DownloadFailed`. -/
theorem c6_retry_spec :
    (∀ (maxRetry : Nat) (outcome : Nat → Bool),
      ((requestLoop maxRetry outcome 0).1 = none ↔
        ∀ i, i ≤ maxRetry → outcome i = false) ∧
      ((requestLoop maxRetry outcome 0).1 = none →
        (requestLoop maxRetry outcome 0).2 = maxRetry) ∧
      (∀ i, (requestLoop maxRetry outcome 0).1 = some i →
        outcome i = true ∧ i ≤ maxRetry ∧
        (∀ j, j < i → outcome j = false) ∧
        (requestLoop maxRetry outcome 0).2 = i)) ∧
    (∀ (pos : Nat) (truncate : Option (Nat × Nat)) (fileSize now : Nat),
      pos < downloadSizeOf truncate fileSize →
      writerOnClose pos (.downloading truncate) fileSize now =
        some .downloadFailed) := by
  constructor
  · intro maxRetry outcome
    have h := requestLoop_go maxRetry outcome (maxRetry - 0) 0 rfl
      (Nat.zero_le _)
    refine ⟨?_, h.2.1, ?_⟩
    · rw [h.1]
      exact ⟨fun hall i hi => hall i (Nat.zero_le _) hi,
        fun hall i _ hi => hall i hi⟩
    · intro i hi
      rcases h.2.2 i hi with ⟨h1, h2, h3, h4⟩
      exact ⟨h1, h2, fun j hj => h3 j (Nat.zero_le _) hj, h4⟩
  · intro pos truncate fileSize now hlt
    simp [writerOnClose, hlt]

/-- Witness for C6 at concrete inputs: with `max_retry = 2` and every
attempt failing, the loop aborts after 2 sleeps; with 5 of 10 capped bytes
written when the channel closes, the slot becomes `DownloadFailed`. -/
theorem c6_retry_witness :
    (requestLoop 2 (fun _ => false) 0).1 = none ∧
    (requestLoop 2 (fun _ => false) 0).2 = 2 ∧
    writerOnClose 5 (.downloading none) 10 3 = some .downloadFailed := by
  have h := (c6_retry_spec.1 2 (fun _ => false)).1.mpr (fun i _ => rfl)
  exact ⟨h, (c6_retry_spec.1 2 (fun _ => false)).2.1 h,
    c6_retry_spec.2 5 none 10 3 (by decide)⟩

/-- Claim C7: for every batch element, folder items are skipped; a
non-folder item with a cached slot removes the slot from the map and marks
it `Invalidated` when the item is deleted or its `c_tag` differs from the
slot's stored tag; an equal `c_tag` leaves the slot unchanged; an item with
no cached slot has no effect. -/
theorem c7_sync_items_spec (m : CacheMapM) (item : DriveItemM) :
    (item.folder = true → syncOne m item = some (m, [])) ∧
    (item.folder = false → lookupSlot m item.id = none →
      syncOne m item = some (m, [])) ∧
    (∀ slot, item.folder = false → lookupSlot m item.id = some slot →
      (item.deleted = true →
        syncOne m item =
          some (removeSlot m item.id, [{ slot with status := .invalidated }])) ∧
      (item.deleted = false → ∀ t, item.cTag = some t →
        (slot.cTag = t → syncOne m item = some (m, [])) ∧
        (slot.cTag ≠ t →
          syncOne m item =
            some (removeSlot m item.id,
              [{ slot with status := .invalidated }])))) := by
  refine ⟨fun hf => by simp [syncOne, hf], fun hf hl => by simp [syncOne, hf, hl], ?_⟩
  intro slot hf hl
  constructor
  · intro hd
    simp [syncOne, hf, hl, hd]
  · intro hd t ht
    exact ⟨fun he => by simp [syncOne, hf, hl, hd, ht, he],
      fun hne => by simp [syncOne, hf, hl, hd, ht, hne]⟩

/-- Witness for C7 at a concrete input: a batch item whose `c_tag` differs
from the cached slot's tag removes the slot and marks it `Invalidated`. -/
theorem c7_sync_items_witness :
    syncOne [("x", { cTag := "t1", status := .available })]
        { id := "x", folder := false, deleted := false, cTag := some "t2" } =
      some (removeSlot [("x", { cTag := "t1", status := .available })] "x",
        [{ cTag := "t1", status := .invalidated }]) :=
  (((c7_sync_items_spec
        [("x", { cTag := "t1", status := .available })]
        { id := "x", folder := false, deleted := false,
          cTag := some "t2" }).2.2
      { cTag := "t1", status := .available } rfl (by decide)).2
    rfl "t2" rfl).2 (by decide)

theorem listSet_getD {α : Type} :
    ∀ (l : List α) (k : Nat) (v d : α), k < l.length →
      (l.set k v).getD k d = v
  | _ :: _, 0, _, _, _ => rfl
  | _ :: l, k + 1, v, d, h =>
    listSet_getD l k v d (Nat.lt_of_succ_lt_succ h)

theorem getD_some_lt_length {α : Type} :
    ∀ (l : List (Option α)) (k : Nat), l.getD k none ≠ none → k < l.length := by
  intro l
  induction l with
  | nil =>
    intro k h
    exact absurd rfl h
  | cons a l ih =>
    intro k h
    cases k with
    | zero => simp
    | succ k => simpa using ih k h

theorem slabCreate_get (ino : InodeM) :
    ∀ pool : List (Option InodeM),
      ((slabCreate pool ino).2).getD (slabCreate pool ino).1 none = some ino
  | [] => rfl
  | none :: _ => rfl
  | some x :: rest => by
    simpa [slabCreate] using slabCreate_get ino rest

theorem find_filter_ne (id : ItemId) :
    ∀ l : List (ItemId × Nat),
      (l.filter fun e => !(e.1 == id)).find? (fun e => e.1 == id) = none := by
  intro l
  induction l with
  | nil => rfl
  | cons e l ih =>
    by_cases he : e.1 == id
    · simp only [List.filter, he]
      exact ih
    · rw [Bool.not_eq_true] at he
      simp only [List.filter, he, Bool.not_false]
      rw [List.find?_cons_of_neg _ (by simp [he])]
      exact ih

/-- Claim C8: an inode allocated by `acquire_or_alloc` starts with
ref-count 1; acquiring an existing id increments it by 1; `free_key(key,
count)` decrements it by `count`, keeping the entry (and the reverse map)
exactly while the count stays positive; when the count reaches 0 (here
`count = ref_count`; the `u64` count cannot go below zero) the item-id is
removed from the reverse map and the slab entry is cleared within the same
critical section, so the key cannot be reused with a stale reverse-map
entry. -/
theorem c8_refcount_spec (p : InodePoolM) (id : ItemId) (key count : Nat)
    (ino : InodeM) :
    (revLookup p id = none →
      ∃ k p1, InodePool.acquire_or_alloc p id = some (k, p1) ∧
        poolGet p1 k = some { refCount := 1, itemId := id }) ∧
    (revLookup p id = some key → poolGet p key = some ino →
      ∃ p1, InodePool.acquire_or_alloc p id = some (key, p1) ∧
        poolGet p1 key = some { ino with refCount := ino.refCount + 1 } ∧
        p1.revMap = p.revMap) ∧
    (poolGet p key = some ino → count < ino.refCount →
      ∃ p1, InodePool.free_key p key count = .decremented p1 ∧
        poolGet p1 key = some { ino with refCount := ino.refCount - count } ∧
        p1.revMap = p.revMap) ∧
    (poolGet p key = some ino → count = ino.refCount →
      (revLookup p ino.itemId).isSome = true →
      ∃ p1, InodePool.free_key p key count = .freed p1 ∧
        poolGet p1 key = none ∧ revLookup p1 ino.itemId = none) := by
  refine ⟨?_, ?_, ?_, ?_⟩
  · intro hrl
    refine ⟨(slabCreate p.pool { refCount := 1, itemId := id }).1,
      { pool := (slabCreate p.pool { refCount := 1, itemId := id }).2,
        revMap :=
          p.revMap ++ [(id, (slabCreate p.pool { refCount := 1, itemId := id }).1)] },
      by simp [InodePool.acquire_or_alloc, hrl], ?_⟩
    simpa [poolGet] using slabCreate_get { refCount := 1, itemId := id } p.pool
  · intro hrl hpg
    have hk : key < p.pool.length :=
      getD_some_lt_length p.pool key (by simp [poolGet] at hpg ⊢; simp [hpg])
    refine
      ⟨{ p with
           pool :=
             p.pool.set key (some { ino with refCount := ino.refCount + 1 }) },
        by simp [InodePool.acquire_or_alloc, hrl, hpg], ?_, rfl⟩
    simpa [poolGet] using
      listSet_getD p.pool key (some { ino with refCount := ino.refCount + 1 })
        none hk
  · intro hpg hlt
    have hk : key < p.pool.length :=
      getD_some_lt_length p.pool key (by simp [poolGet] at hpg ⊢; simp [hpg])
    refine
      ⟨{ p with
           pool :=
             p.pool.set key (some { ino with refCount := ino.refCount - count }) },
        by simp [InodePool.free_key, hpg, hlt], ?_, rfl⟩
    simpa [poolGet] using
      listSet_getD p.pool key (some { ino with refCount := ino.refCount - count })
        none hk
  · intro hpg hcnt hsome
    have hk : key < p.pool.length :=
      getD_some_lt_length p.pool key (by simp [poolGet] at hpg ⊢; simp [hpg])
    have hnlt : ¬ count < ino.refCount := by omega
    have hnone : ¬ (revLookup p ino.itemId).isNone = true := by
      simp only [Option.isNone_iff_eq_none]
      rcases Option.isSome_iff_exists.mp hsome with ⟨k, hkk⟩
      simp [hkk]
    refine
      ⟨{ pool := p.pool.set key none,
         revMap := p.revMap.filter fun e => !(e.1 == ino.itemId) },
        by simp [InodePool.free_key, hpg, hnlt, hnone], ?_, ?_⟩
    · simpa [poolGet] using listSet_getD p.pool key none none hk
    · simp [revLookup, find_filter_ne]

/-- Witness for C8 at a concrete input: freeing key 0 of `c8Pool` with
count 2 (the full ref-count) clears the slab entry and removes the reverse
mapping. -/
theorem c8_refcount_witness :
    ∃ p1, InodePool.free_key c8Pool 0 2 = .freed p1 ∧
      poolGet p1 0 = none ∧ revLookup p1 "a" = none :=
  (c8_refcount_spec c8Pool "a" 0 2 { refCount := 2, itemId := "a" }).2.2.2
    rfl rfl (by decide)

/-- Claim C10: the streaming arm of `FilePool::read` clamps with the
unchecked `u64` subtraction `file_size - offset`, which is well defined
(equal to the mathematical difference) exactly under the precondition
`offset ≤ file_size`; at `offset > file_size` the subtraction underflows,
and (since the stream cursor never exceeds `file_size`) the call returns a
`NonsequentialRead` error rather than the empty bytes the cached path
yields. -/
theorem c10_stream_clamp_underflow (fileSize offset size : Nat)
    (st : FileStreamStateM) :
    ((u64_overflowing_sub fileSize offset).2 = true ↔ fileSize < offset) ∧
    (offset ≤ fileSize → fileSize < 2 ^ 64 →
      (u64_overflowing_sub fileSize offset).1 = fileSize - offset) ∧
    (fileSize < offset → st.currentPos ≤ fileSize →
      FilePool.readStreaming fileSize st offset size =
        (.error (.nonsequentialRead st.currentPos offset), st)) := by
  refine ⟨by simp [u64_overflowing_sub], ?_, ?_⟩
  · intro h1 h2
    simp only [u64_overflowing_sub]
    omega
  · intro h1 h2
    have hne : offset ≠ st.currentPos := by omega
    simp [FilePool.readStreaming, FileStreamState.read, hne]

/-- Witness for C10 at a concrete input: a streaming handle with cursor 2
over a file of size 3, read at offset 5. -/
theorem c10_stream_clamp_witness :
    FilePool.readStreaming 3 ⟨2, none, []⟩ 5 4 =
      (.error (.nonsequentialRead 2 5), ⟨2, none, []⟩) :=
  (c10_stream_clamp_underflow 3 5 4 ⟨2, none, []⟩).2.2 (by decide) (by decide)

/-- Counterexample to claim C1 as stated: start from the empty cache under
a configuration with `max_total_size = max_cached_file_size = 10` and
`upload.max_size = 100` (legal for `DiskCache::new`); create an empty slot
and write 100 bytes into it.  `CacheSlot::write` checks only
`upload.max_size`, so the sum of live `file_size` reaches 100 > 10: the
byte budget is not preserved by `write`. -/
theorem c1_budget_counterexample :
    c1Cfg.maxCachedFileSize ≤ c1Cfg.maxTotalSize ∧
    accounted (runOps c1Cfg [.insertNew "a", .write "a" 100 0]) ∧
    sumLive (runOps c1Cfg [.insertNew "a", .write "a" 100 0]) = 100 ∧
    ¬ sumLive (runOps c1Cfg [.insertNew "a", .write "a" 100 0]) ≤
        c1Cfg.maxTotalSize := by
  decide

theorem sum_size_filter (id : ItemId) (l : List SlotEntry) :
    ((l.filter fun e => !(e.id == id)).map SlotEntry.size).sum +
      ((l.filter fun e => e.id == id).map SlotEntry.size).sum =
      (l.map SlotEntry.size).sum := by
  induction l with
  | nil => rfl
  | cons e l ih =>
    cases he : e.id == id <;> simp [List.filter, he] <;> omega

theorem map_size_comp_invalidate (l : List SlotEntry) :
    l.map (SlotEntry.size ∘ fun e =>
      { e with status := FileCacheStatus.invalidated }) =
    l.map SlotEntry.size := by
  induction l with
  | nil => rfl
  | cons e l ih => simp_all [Function.comp]

theorem evictLoop_spec (maxCached fileSize : Nat) :
    ∀ (lru : List SlotEntry) (drops : List Bool) (total : Nat)
      (det : List SlotEntry),
      total = (lru.map SlotEntry.size).sum + (det.map SlotEntry.size).sum →
      ((evictLoop maxCached fileSize lru drops total det).2.1 =
          ((evictLoop maxCached fileSize lru drops total det).1.map
            SlotEntry.size).sum +
          ((evictLoop maxCached fileSize lru drops total det).2.2.1.map
            SlotEntry.size).sum) ∧
      (evictLoop maxCached fileSize lru drops total det).2.1 ≤ total ∧
      ((evictLoop maxCached fileSize lru drops total det).2.2.2 = true →
        (evictLoop maxCached fileSize lru drops total det).2.1 + fileSize ≤
          maxCached) := by
  intro lru
  induction lru with
  | nil =>
    intro drops total det hacc
    rw [evictLoop.eq_def]
    by_cases hc : maxCached < total + fileSize
    · simp only [if_pos hc]
      simp at hacc
      exact ⟨by simpa using hacc, le_rfl, by simp⟩
    · simp only [if_neg hc]
      exact ⟨hacc, le_rfl, fun _ => by omega⟩
  | cons e rest ih =>
    intro drops total det hacc
    rw [evictLoop.eq_def]
    by_cases hc : maxCached < total + fileSize
    · simp only [if_pos hc]
      have hsz : e.size ≤ total := by
        simp at hacc
        omega
      rcases drops with _ | ⟨d, ds⟩
      · have hacc' : total =
            (rest.map SlotEntry.size).sum +
              ((det ++ [e]).map SlotEntry.size).sum := by
          simp at hacc ⊢
          omega
        have h := ih [] total (det ++ [e]) hacc'
        exact ⟨h.1, h.2.1, h.2.2⟩
      · cases d
        · have hacc' : total =
              (rest.map SlotEntry.size).sum +
                ((det ++ [e]).map SlotEntry.size).sum := by
            simp at hacc ⊢
            omega
          have h := ih ds total (det ++ [e]) hacc'
          exact ⟨h.1, h.2.1, h.2.2⟩
        · have hacc' : total - e.size =
              (rest.map SlotEntry.size).sum +
                (det.map SlotEntry.size).sum := by
            simp at hacc ⊢
            omega
          have h := ih ds (total - e.size) det hacc'
          exact ⟨h.1, Nat.le_trans h.2.1 (Nat.sub_le _ _), h.2.2⟩
    · simp only [if_neg hc]
      exact ⟨hacc, le_rfl, fun _ => by omega⟩

/-- Claim C1 amended: the budget invariant `sum of live file_size ≤
max_total_size` is preserved by `try_alloc_and_fetch` (whose eviction loop
even enforces the stronger `≤ max_cached_file_size` bound), by
`insert_empty` and by slot drop, under the constructor assertion
`max_cached_file_size ≤ max_total_size` and the accounting invariant
`total_size = sum of live file_size` — but not by `CacheSlot::write`,
which checks only `upload.max_size` (see the counterexample). -/
theorem c1_budget_amended (cfg : DiskCacheConfigM) (s : DiskCacheM)
    (op : CacheOp) (hcfg : cfg.maxCachedFileSize ≤ cfg.maxTotalSize)
    (hacc : accounted s) (hbud : sumLive s ≤ cfg.maxTotalSize)
    (hop : op.isWrite = false) :
    sumLive (applyOp cfg s op) ≤ cfg.maxTotalSize ∧
      accounted (applyOp cfg s op) := by
  cases op with
  | write id endPos now => simp [CacheOp.isWrite] at hop
  | dropOne =>
    rcases hd : s.detached with _ | ⟨e, rest⟩
    · simp [applyOp, dropDetached, hd]
      exact ⟨hbud, hacc⟩
    · have h1 :
          sumLive
            { s with
                detached := rest,
                totalSize := s.totalSize - e.size } =
          (s.lru.map SlotEntry.size).sum + (rest.map SlotEntry.size).sum := rfl
      have h2 : sumLive s =
          (s.lru.map SlotEntry.size).sum +
            (e.size + (rest.map SlotEntry.size).sum) := by
        simp [sumLive, hd]
      constructor
      · simp [applyOp, dropDetached, hd, h1]
        omega
      · simp [applyOp, dropDetached, hd, accounted, h1]
        have := hacc
        simp [accounted, h2] at this
        omega
  | insertNew id =>
    have hsum : sumLive (insertEmpty id s) = sumLive s := by
      simp [insertEmpty, sumLive, map_size_comp_invalidate]
      have := sum_size_filter id s.lru
      omega
    constructor
    · simpa [applyOp, hsum] using hbud
    · have h2 : applyOp cfg s (.insertNew id) = insertEmpty id s := rfl
      rw [h2]
      unfold accounted at hacc ⊢
      rw [hsum]
      exact hacc
  | alloc id fileSize drops =>
    by_cases h1 : cfg.maxCachedFileSize < fileSize
    · simp [applyOp, tryAllocAndFetch, h1]
      exact ⟨hbud, hacc⟩
    · by_cases h2 : (s.lru.find? fun e => e.id == id).isSome
      · simp [applyOp, tryAllocAndFetch, h1, h2]
        exact ⟨hbud, hacc⟩
      · have hacc' : s.totalSize =
            (s.lru.map SlotEntry.size).sum +
              (s.detached.map SlotEntry.size).sum := hacc
        have hb : (s.lru.map SlotEntry.size).sum +
            (s.detached.map SlotEntry.size).sum ≤ cfg.maxTotalSize := hbud
        have hspec := evictLoop_spec cfg.maxCachedFileSize fileSize s.lru
          drops s.totalSize s.detached hacc'
        rcases hEv : evictLoop cfg.maxCachedFileSize fileSize s.lru drops
            s.totalSize s.detached with ⟨lru1, total1, det1, flag⟩
        rw [hEv] at hspec
        simp only [] at hspec
        cases flag
        · simp [applyOp, tryAllocAndFetch, h1, h2, hEv, sumLive, accounted]
          rcases hspec with ⟨hs1, hs2, hs3⟩
          refine ⟨by omega, by omega⟩
        · have hflag := hspec.2.2 rfl
          simp [applyOp, tryAllocAndFetch, h1, h2, hEv, sumLive, accounted]
          rcases hspec with ⟨hs1, hs2, hs3⟩
          refine ⟨by omega, by omega⟩

/-- Witness for the amended C1 at a concrete input: allocating a 5-byte
slot in the empty cache under `c1Cfg` keeps the live sum within the
budget and the counter accounted. -/
theorem c1_budget_amended_witness :
    sumLive (applyOp c1Cfg emptyCache (.alloc "a" 5 [])) ≤
        c1Cfg.maxTotalSize ∧
      accounted (applyOp c1Cfg emptyCache (.alloc "a" 5 [])) :=
  c1_budget_amended c1Cfg emptyCache (.alloc "a" 5 []) (by decide)
    (by decide) (by decide) rfl

/-- Counterexample to claim C2 as stated: in the run `c2Events` the writer
publishes 200 (bytes written) and then 50 (the shrunk `file_size` at
completion), so the values on the `available_size` watch channel are not
monotone non-decreasing when a truncate shrinks `file_size` below the bytes
already written. -/
theorem c2_monotone_counterexample :
    (writerRun c2Init c2Events).2 = [200, 50] ∧
    ¬ List.Chain' (· ≤ ·) (writerRun c2Init c2Events).2 := by
  have h : (writerRun c2Init c2Events).2 = [200, 50] := rfl
  exact ⟨h, by rw [h]; simp [List.chain'_cons]⟩

theorem chainLB_cons {lb x : Nat} {d : Bool} :
    ∀ {L : List Nat}, lb ≤ x → chainLB x L d → chainLB lb (x :: L) d
  | [], h, _ => by cases d <;> simp [chainLB, h]
  | _ :: _, h, h2 => ⟨h, h2⟩

theorem chainLB_head_le {x y : Nat} {rest : List Nat}
    (h : chainLB x (y :: rest) false) : x ≤ y := by
  cases rest with
  | nil => simpa [chainLB] using h
  | cons z t => exact h.1

theorem writerRun_done : ∀ (es : List DlEvent) (s : WriterSt),
    s.done = true → writerRun s es = (s, [])
  | [], _, _ => rfl
  | .chunk n :: es, s, h => by
    simp [writerRun, writerChunk, h, writerRun_done es s h]
  | .truncateTo n :: es, s, h => by
    simp [writerRun, truncateDuringDownload, h, writerRun_done es s h]

theorem writerRun_chainLB : ∀ (es : List DlEvent) (s : WriterSt),
    s.done = false →
    chainLB s.pos (writerRun s es).2 (writerRun s es).1.done
  | [], s, _ => trivial
  | .truncateTo n :: es, s, h => by
    have h1 : (truncateDuringDownload s n).done = false := by
      simp [truncateDuringDownload, h]
    have h2 : (truncateDuringDownload s n).pos = s.pos := by
      simp [truncateDuringDownload, h]
    have := writerRun_chainLB es (truncateDuringDownload s n) h1
    rw [h2] at this
    simpa [writerRun] using this
  | .chunk n :: es, s, h => by
    rw [writerRun]
    simp only [writerChunk, h, Bool.false_eq_true, if_false]
    by_cases hc : s.pos + min n (downloadCap s - s.pos) < downloadCap s
    · simp only [if_pos hc, List.cons_append, List.nil_append]
      have := writerRun_chainLB es
        { s with pos := s.pos + min n (downloadCap s - s.pos), done := false }
        rfl
      exact chainLB_cons (Nat.le_add_right _ _) this
    · simp only [if_neg hc]
      rw [writerRun_done es _ rfl]
      simp [chainLB]

theorem chainLB_chain : ∀ (L : List Nat) (lb : Nat) (d : Bool),
    chainLB lb L d →
    List.Chain' (· ≤ ·) (if d = true then L.dropLast else L)
  | [], _, d, _ => by cases d <;> simp
  | [_], _, d, _ => by cases d <;> simp
  | x :: y :: rest, lb, d, h => by
    have ih := chainLB_chain (y :: rest) x d h.2
    cases d
    · simp only [Bool.false_eq_true, if_false] at ih ⊢
      exact List.chain'_cons.mpr ⟨chainLB_head_le h.2, ih⟩
    · simp only [if_pos rfl] at ih ⊢
      cases rest with
      | nil => simp
      | cons z t =>
        have hdl : (y :: z :: t).dropLast = y :: (z :: t).dropLast := rfl
        rw [show (x :: y :: z :: t).dropLast = x :: (y :: z :: t).dropLast
          from rfl, hdl]
        rw [hdl] at ih
        exact List.chain'_cons.mpr ⟨h.2.1, ih⟩

/-- Claim C2 amended: within a single `Downloading` lifetime, the values
the writer task publishes on the `available_size` watch channel are the
successive values of `pos` and are monotone non-decreasing, except for the
single final publication of `file_size` at completion, which can be smaller
than the last published `pos` when a truncate shrank `file_size` below the
bytes already written (see the counterexample).  Dropping that final
publication, every run is monotone; a run that has not completed is
monotone outright. -/
theorem c2_monotone_amended (s : WriterSt) (es : List DlEvent) :
    List.Chain' (· ≤ ·)
      (if (writerRun s es).1.done = true then (writerRun s es).2.dropLast
       else (writerRun s es).2) := by
  cases hd : s.done
  · exact chainLB_chain _ _ _ (writerRun_chainLB es s hd)
  · rw [writerRun_done es s hd]
    simp [hd]

end OnedriveFuse

